import Mathlib

/-!
# Verification of the diffuse-tui diff alignment and interaction engine

Shallow embedding of the side-by-side diff viewer: the section aligner
(`computeDiffSections`), the fold/viewport model (`getSectionDisplayLines`,
`totalDisplayLines`), the navigation state machine (cursor movement, section
jumps, clamping), the edit/undo subsystem (`copyLeftToRight`,
`copyRightToLeft`, `undoLastEdit`) and the two renderers (the interactive
`renderLines` loop and the non-interactive `dumpDiff` loop).

The underlying line-diff primitive (`Diff.diffArrays` from the `diff` npm
package) is an external collaborator of the program; it is modelled here as an
executable LCS-based run classifier (see `diffArrays` below).
-/

/-- Line kind of a display line: `'equal' | 'remove' | 'add' | 'empty'`. -/
inductive LineType where
  | equal
  | remove
  | add
  | empty
deriving DecidableEq, Repr

/-- `{ content: string; type: ... }` — one display line. -/
structure DiffLine where
  content : String
  type : LineType
deriving DecidableEq, Repr

/-- `DiffSection` from `src/diff.ts` / `App.tsx`. -/
structure DiffSection where
  leftStart : Nat
  rightStart : Nat
  leftLines : List DiffLine
  rightLines : List DiffLine
deriving DecidableEq, Repr

/-- One run produced by the line classifier (`Diff.diffArrays` change object):
a list of lines plus `added`/`removed` flags (an equal run has both false). -/
structure Change where
  value : List String
  added : Bool
  removed : Bool
deriving DecidableEq, Repr

/-- Fuel-based length of a longest common subsequence of two line lists
(helper for the modelled classifier; fuel makes it structurally recursive so
that concrete inputs reduce in the kernel). -/
def lcsLenF : Nat → List String → List String → Nat
  | 0, _, _ => 0
  | _ + 1, [], _ => 0
  | _ + 1, _, [] => 0
  | fuel + 1, x :: xs, y :: ys =>
    if x = y then lcsLenF fuel xs ys + 1
    else max (lcsLenF fuel xs (y :: ys)) (lcsLenF fuel (x :: xs) ys)

/-- Prepend one line to a run list, merging it into the head run when the
flags agree (keeps runs maximal, as the classifier contract requires). -/
def consChange (s : String) (addFlag remFlag : Bool) : List Change → List Change
  | [] => [⟨[s], addFlag, remFlag⟩]
  | c :: rest =>
    if c.added = addFlag ∧ c.removed = remFlag then
      ⟨s :: c.value, addFlag, remFlag⟩ :: rest
    else
      ⟨[s], addFlag, remFlag⟩ :: c :: rest

/-- Fuel-based LCS diff: emits `removed` runs before `added` runs at each
replacement point, matching the order `computeDiffSections` relies on. -/
def diffLinesF : Nat → List String → List String → List Change
  | 0, _, _ => []
  | _ + 1, [], [] => []
  | _ + 1, [], y :: ys => [⟨y :: ys, true, false⟩]
  | _ + 1, x :: xs, [] => [⟨x :: xs, false, true⟩]
  | fuel + 1, x :: xs, y :: ys =>
    if x = y then consChange x false false (diffLinesF fuel xs ys)
    else if lcsLenF (xs.length + ys.length + 1) (x :: xs) ys ≤
            lcsLenF (xs.length + ys.length + 1) xs (y :: ys) then
      consChange x false true (diffLinesF fuel xs (y :: ys))
    else
      consChange y true false (diffLinesF fuel (x :: xs) ys)

/-- Modelled from the spec: the external Line Classifier
(`Diff.diffArrays` of the `diff` npm package, which the source repository
consumes as a black box).  Per the spec it is the longest-common-subsequence
line-diff primitive: "given two ordered sequences of lines, returns an ordered
list of runs, each tagged equal, added, or removed, with its contiguous
lines", where runs partition the full inputs in order and are maximal. -/
def diffArrays (xs ys : List String) : List Change :=
  diffLinesF (xs.length + ys.length) xs ys

/-- Number of leading context lines kept around folds (`contextLines = 3`). -/
def contextLines : Nat := 3

/-- Helper for `splitLines`: walk the characters, cutting at `'\n'`. -/
def splitLinesAux : List Char → List Char → List String
  | [], acc => [String.mk acc.reverse]
  | c :: cs, acc =>
    if c = '\n' then String.mk acc.reverse :: splitLinesAux cs []
    else splitLinesAux cs (c :: acc)

/-- JavaScript `s.split('\n')`: `""` yields `[""]`, a trailing newline yields a
trailing empty element. -/
def splitLines (s : String) : List String :=
  splitLinesAux s.data []

/-- JavaScript `lines.join('\n')`. -/
def joinLines : List String → String
  | [] => ""
  | [x] => x
  | x :: y :: xs => x ++ "\n" ++ joinLines (y :: xs)

/-- Left column of a merged removed+added section: row `j` is the `j`-th
removed line, or an `empty` padding row once the removed run is exhausted. -/
def mergedLeftCol (lines : List String) (maxLen : Nat) : List DiffLine :=
  (List.range maxLen).map fun j =>
    match lines[j]? with
    | some s => ⟨s, .remove⟩
    | none => ⟨"", .empty⟩

/-- Right column of a merged removed+added section. -/
def mergedRightCol (lines : List String) (maxLen : Nat) : List DiffLine :=
  (List.range maxLen).map fun j =>
    match lines[j]? with
    | some s => ⟨s, .add⟩
    | none => ⟨"", .empty⟩

/-- Section built from a single (unmerged) change, with the source's branch
order: `added` checked before `removed`, else `equal`. -/
def singleSection (c : Change) (li ri : Nat) : DiffSection :=
  if c.added then
    ⟨li, ri, c.value.map fun _ => ⟨"", .empty⟩, c.value.map fun s => ⟨s, .add⟩⟩
  else if c.removed then
    ⟨li, ri, c.value.map fun s => ⟨s, .remove⟩, c.value.map fun _ => ⟨"", .empty⟩⟩
  else
    ⟨li, ri, c.value.map fun s => ⟨s, .equal⟩, c.value.map fun s => ⟨s, .equal⟩⟩

/-- How far the left source index advances past a single change. -/
def leftAdvance (c : Change) : Nat :=
  if c.added then 0 else c.value.length

/-- How far the right source index advances past a single change. -/
def rightAdvance (c : Change) : Nat :=
  if c.added then c.value.length else if c.removed then 0 else c.value.length

/-- `if (section.leftLines.length > 0 || section.rightLines.length > 0)
sections.push(section)` — drop zero-length sections. -/
def pushSection (s : DiffSection) (rest : List DiffSection) : List DiffSection :=
  if s.leftLines.length > 0 ∨ s.rightLines.length > 0 then s :: rest else rest

/-- Main loop of `computeDiffSections`, walking the classifier runs with the
running left/right source indices; a `removed` run immediately followed by an
`added` run is merged into one vertically aligned section. -/
def sectionsFromChanges : List Change → Nat → Nat → List DiffSection
  | [], _, _ => []
  | [c], li, ri =>
    pushSection (singleSection c li ri) []
  | c :: next :: rest2, li, ri =>
    if c.removed && next.added then
      let maxLen := max c.value.length next.value.length
      pushSection ⟨li, ri, mergedLeftCol c.value maxLen, mergedRightCol next.value maxLen⟩
        (sectionsFromChanges rest2 (li + c.value.length) (ri + next.value.length))
    else
      pushSection (singleSection c li ri)
        (sectionsFromChanges (next :: rest2) (li + leftAdvance c) (ri + rightAdvance c))

/-- `computeDiffSections(left, right)` — split both documents on newlines,
classify, and align into sections. -/
def computeDiffSections (left right : String) : List DiffSection :=
  sectionsFromChanges (diffArrays (splitLines left) (splitLines right)) 0 0

/-- A section is changed iff some line in either column is not `equal`. -/
def hasChanges (s : DiffSection) : Bool :=
  s.leftLines.any (fun l => l.type ≠ .equal) || s.rightLines.any (fun l => l.type ≠ .equal)

/-- Raw row length of a section: `max(leftLines.length, rightLines.length)`. -/
def rawRowLength (s : DiffSection) : Nat :=
  max s.leftLines.length s.rightLines.length

/-- `getSectionDisplayLines` from `App.tsx`: display row count of a section,
accounting for folding. -/
def getSectionDisplayLines (foldingEnabled : Bool) (s : DiffSection) : Nat :=
  let maxLines := rawRowLength s
  let shouldFold := foldingEnabled && !(hasChanges s) && decide (contextLines * 2 + 1 < maxLines)
  if shouldFold then contextLines * 2 + 1 else maxLines

/-- Total display row count: the sum of every section's display row count. -/
def totalDisplayLines (foldingEnabled : Bool) (secs : List DiffSection) : Nat :=
  secs.foldl (fun sum s => sum + getSectionDisplayLines foldingEnabled s) 0

/-- Loop of `getCurrentLineInfo`: cumulative scan for the first section whose
display row range contains the cursor; yields the section index and the
cursor's offset inside the section. -/
def getCurrentLineInfoAux (foldingEnabled : Bool) (cur : Int) :
    List DiffSection → Nat → Int → Option (Nat × Int)
  | [], _, _ => none
  | s :: rest, i, lineCount =>
    let n : Nat := getSectionDisplayLines foldingEnabled s
    if cur < lineCount + (n : Int) then some (i, cur - lineCount)
    else getCurrentLineInfoAux foldingEnabled cur rest (i + 1) (lineCount + (n : Int))

/-- `getCurrentLineInfo` from `App.tsx` (section index and line within the
section for the current cursor row; `none` when the cursor is past the end). -/
def getCurrentLineInfoFn (foldingEnabled : Bool) (cur : Int)
    (secs : List DiffSection) : Option (Nat × Int) :=
  getCurrentLineInfoAux foldingEnabled cur secs 0 0

/-- Mutable state of the interactive `App` component (the fields the claims
concern; the left document and original right document are immutable props
passed separately). -/
structure AppState where
  currentLine : Int
  scrollOffset : Int
  foldingEnabled : Bool
  horizontalOffset : Int
  editedRightContent : String
  undoStack : List String
deriving DecidableEq, Repr

/-- JavaScript `array.splice(start, deleteCount, ...items)` for non-negative
arguments: remove `deleteCount` elements at `start` and insert `items`. -/
def spliceList (xs : List String) (start deleteCount : Nat)
    (items : List String) : List String :=
  xs.take start ++ items ++ xs.drop (start + deleteCount)

/-- Count of non-`empty` right-column lines over a section list (the loops in
`copyLeftToRight`/`copyRightToLeft` that locate a section's right-side span). -/
def countNonEmptyRight (secs : List DiffSection) : Nat :=
  secs.foldl (fun n s => n + (s.rightLines.filter fun l => l.type ≠ .empty).length) 0

/-- Sections derived from the props and the working document
(`computeDiffSections(leftContent, editedRightContent)`). -/
def stateSections (left : String) (st : AppState) : List DiffSection :=
  computeDiffSections left st.editedRightContent

/-- The spliced working-document text that `copyLeftToRight` installs when its
guards pass: replace the current section's non-empty right rows with the
section's non-empty left-side contents. -/
def leftSpliceText (left : String) (st : AppState) : String :=
  let secs := stateSections left st
  match getCurrentLineInfoFn st.foldingEnabled st.currentLine secs with
  | none => st.editedRightContent
  | some (si, _) =>
    match secs[si]? with
    | none => st.editedRightContent
    | some sec =>
      let rightLines := splitLines st.editedRightContent
      let actualRightLineStart := countNonEmptyRight (secs.take si)
      let rightLinesToRemove := (sec.rightLines.filter fun l => l.type ≠ .empty).length
      let leftLinesToAdd := (sec.leftLines.filter fun l => l.type ≠ .empty).map (·.content)
      joinLines (spliceList rightLines actualRightLineStart rightLinesToRemove leftLinesToAdd)

/-- `copyLeftToRight` from `App.tsx`: no-op unless the cursor is on a section
with changes; otherwise push the working document onto the undo stack and
splice the section's left-side content over its right-side span. -/
def copyLeftToRight (left : String) (st : AppState) : AppState :=
  let secs := stateSections left st
  match getCurrentLineInfoFn st.foldingEnabled st.currentLine secs with
  | none => st
  | some (si, _) =>
    match secs[si]? with
    | none => st
    | some sec =>
      if !(hasChanges sec) then st
      else
        { st with
          undoStack := st.undoStack ++ [st.editedRightContent]
          editedRightContent := leftSpliceText left st }

/-- The spliced text `copyRightToLeft` installs when it reaches its splice:
`none` when the guards fail or when the freshly computed original alignment
has no section at the current section index. -/
def rightSpliceTextOpt (left rightOrig : String) (st : AppState) : Option String :=
  let secs := stateSections left st
  match getCurrentLineInfoFn st.foldingEnabled st.currentLine secs with
  | none => none
  | some (si, _) =>
    match secs[si]? with
    | none => none
    | some sec =>
      let originalSections := computeDiffSections left rightOrig
      match originalSections[si]? with
      | none => none
      | some origSection =>
        let currentRightLines := splitLines st.editedRightContent
        let originalLinesToRestore :=
          (origSection.rightLines.filter fun l => l.type ≠ .empty).map (·.content)
        let currentRightLineStart := countNonEmptyRight (secs.take si)
        let currentLinesToRemove := (sec.rightLines.filter fun l => l.type ≠ .empty).length
        some (joinLines
          (spliceList currentRightLines currentRightLineStart currentLinesToRemove
            originalLinesToRestore))

/-- `copyRightToLeft` from `App.tsx`: push the working document onto the undo
stack, then restore the current section's right-side span from a freshly
computed alignment of (left, original right); when that alignment has no
section at the current index, return after the push without editing. -/
def copyRightToLeft (left rightOrig : String) (st : AppState) : AppState :=
  let secs := stateSections left st
  match getCurrentLineInfoFn st.foldingEnabled st.currentLine secs with
  | none => st
  | some (si, _) =>
    match secs[si]? with
    | none => st
    | some _ =>
      let pushed := { st with undoStack := st.undoStack ++ [st.editedRightContent] }
      match rightSpliceTextOpt left rightOrig st with
      | none => pushed
      | some txt => { pushed with editedRightContent := txt }

/-- `undoLastEdit` from `App.tsx`: no-op when the stack is empty, else pop the
last snapshot and install it as the working document. -/
def undoLastEdit (st : AppState) : AppState :=
  match st.undoStack.getLast? with
  | none => st
  | some previousState =>
    { st with
      undoStack := st.undoStack.dropLast
      editedRightContent := previousState }

/-- Total display rows of the current state, as an integer (the `totalLines`
state variable of `App`). -/
def totalRowsInt (left : String) (st : AppState) : Int :=
  (totalDisplayLines st.foldingEnabled (stateSections left st) : Int)

/-- Loop of `jumpToNextSection`: first section whose cumulative start row is
strictly greater than the cursor and which has changes; cursor unchanged when
none exists. -/
def jumpToNextAux (foldingEnabled : Bool) (cursor : Int) :
    List DiffSection → Int → Int
  | [], _ => cursor
  | s :: rest, lineCount =>
    if cursor < lineCount ∧ hasChanges s = true then lineCount
    else jumpToNextAux foldingEnabled cursor rest
      (lineCount + (getSectionDisplayLines foldingEnabled s : Int))

/-- `jumpToNextSection` from `App.tsx`. -/
def jumpToNextSection (foldingEnabled : Bool) (secs : List DiffSection)
    (cursor : Int) : Int :=
  jumpToNextAux foldingEnabled cursor secs 0

/-- Loop of `jumpToPrevSection`: remember the last section whose cumulative
start row is strictly less than the cursor and which has changes. -/
def jumpToPrevAux (foldingEnabled : Bool) (cursor : Int) :
    List DiffSection → Int → Int → Int
  | [], _, best => best
  | s :: rest, lineCount, best =>
    let best2 := if lineCount < cursor ∧ hasChanges s = true then lineCount else best
    jumpToPrevAux foldingEnabled cursor rest
      (lineCount + (getSectionDisplayLines foldingEnabled s : Int)) best2

/-- `jumpToPrevSection` from `App.tsx` (cursor unchanged when no changed
section starts before it). -/
def jumpToPrevSection (foldingEnabled : Bool) (secs : List DiffSection)
    (cursor : Int) : Int :=
  jumpToPrevAux foldingEnabled cursor secs 0 cursor

/-- The pure navigation inputs handled by `useInput` in `App.tsx`. -/
inductive NavCommand where
  | lineUp
  | lineDown
  | pageUp
  | pageDown
  | nextSection
  | prevSection
  | scrollLeft
  | scrollRight
  | foldToggle
deriving DecidableEq, Repr

/-- The auto-scroll effect: keep the cursor inside the viewport by pulling
`scrollOffset` up to the cursor or down to `cursor - viewHeight + 1`. -/
def autoScroll (viewHeight : Nat) (st : AppState) : AppState :=
  if st.currentLine < st.scrollOffset then
    { st with scrollOffset := st.currentLine }
  else if st.scrollOffset + (viewHeight : Int) ≤ st.currentLine then
    { st with scrollOffset := st.currentLine - (viewHeight : Int) + 1 }
  else st

/-- One pure navigation key handled to completion (the `useInput` handlers of
`App.tsx`, followed by the auto-scroll effect).  `viewHeight` is the viewport
height in rows. -/
def applyNav (left : String) (viewHeight : Nat) (cmd : NavCommand)
    (st : AppState) : AppState :=
  let total := totalRowsInt left st
  let secs := stateSections left st
  autoScroll viewHeight <|
    match cmd with
    | .lineUp => { st with currentLine := max 0 (st.currentLine - 1) }
    | .lineDown => { st with currentLine := min (total - 1) (st.currentLine + 1) }
    | .pageUp => { st with currentLine := max 0 (st.currentLine - (viewHeight : Int)) }
    | .pageDown =>
      { st with currentLine := min (total - 1) (st.currentLine + (viewHeight : Int)) }
    | .nextSection =>
      { st with currentLine := jumpToNextSection st.foldingEnabled secs st.currentLine }
    | .prevSection =>
      { st with currentLine := jumpToPrevSection st.foldingEnabled secs st.currentLine }
    | .scrollLeft =>
      { st with horizontalOffset := max 0 (st.horizontalOffset - 5) }
    | .scrollRight => { st with horizontalOffset := st.horizontalOffset + 5 }
    | .foldToggle => { st with foldingEnabled := !st.foldingEnabled }

/-- The clamp effect of `App.tsx` (lines 74-79): when the cursor is at or past
the total row count and rows exist, pull it back to the last row. -/
def clampCursor (left : String) (st : AppState) : AppState :=
  let total := totalRowsInt left st
  if total ≤ st.currentLine ∧ 0 < total then
    { st with currentLine := total - 1 }
  else st

/-- `getPrefixForType`: the fixed two-character markers. -/
def getPrefixForType : LineType → String
  | .add => "+ "
  | .remove => "- "
  | .equal => "  "
  | .empty => "  "

/-- First `n` characters of a string (JavaScript `substring(0, n)`). -/
def strTake (s : String) (n : Nat) : String :=
  String.mk (s.data.take n)

/-- Drop the first `n` characters of a string (JavaScript `substring(n)`). -/
def strDrop (s : String) (n : Nat) : String :=
  String.mk (s.data.drop n)

/-- JavaScript `n.toString().padStart(4)`. -/
def padStart4 (n : Nat) : String :=
  let s := toString n
  String.mk (List.replicate (4 - s.data.length) ' ') ++ s

/-- `padToWidth` of `renderLines` / `pad` of `dumpDiff`: truncate to or pad
with spaces up to exactly `w` characters. -/
def padToWidth (s : String) (w : Nat) : String :=
  if w ≤ s.data.length then strTake s w
  else s ++ String.mk (List.replicate (w - s.data.length) ' ')

/-- `getDisplayContent`: `empty` padding rows render as `⋯`. -/
def getDisplayContent (l : DiffLine) : String :=
  if l.type = .empty then "⋯" else l.content

/-- `applyScrollAndTruncate` of `renderLines`: drop the horizontal offset,
then truncate over-long text to `maxWidth` with a trailing ellipsis. -/
def applyScrollAndTruncate (hOff : Nat) (maxWidth : Nat) (text : String) : String :=
  let result := if 0 < hOff then strDrop text hOff else text
  if maxWidth < result.data.length then strTake result (maxWidth - 1) ++ "…" else result

/-- `truncate` of `dumpDiff`. -/
def dumpTruncate (s : String) (maxWidth : Nat) : String :=
  if maxWidth < s.data.length then strTake s (maxWidth - 1) ++ "…" else s

/-- One display row of either renderer: a fold placeholder standing for
`count` hidden lines, or a content row given by its final padded left and
right column strings (line number + prefix + content). -/
inductive DisplayRow where
  | fold (count : Nat)
  | content (l r : String)
deriving DecidableEq, Repr

/-- Result of one renderer loop: the rows emitted (each paired with its global
row index), the final global index and line-number counters, and whether the
viewport was exhausted (`viewportFull` / the dump's early `return`). -/
structure LoopOut where
  rows : List (Nat × DisplayRow)
  gIdx : Nat
  leftNum : Nat
  rightNum : Nat
  stop : Bool
deriving DecidableEq, Repr

/-- Fixed render configuration shared by both renderers. -/
structure RenderCfg where
  width : Nat
  foldingEnabled : Bool
  scrollOffset : Nat
  viewHeight : Nat
deriving DecidableEq, Repr

/-- Content row of the interactive renderer (`renderLines`): both column
strings assembled from line number, prefix, and scrolled/truncated content,
padded to the column width. -/
def buildRowInteractive (cfg : RenderCfg) (hOff : Nat)
    (leftLine rightLine : DiffLine) (lNum rNum : Nat) : DisplayRow :=
  let columnWidth := (cfg.width - 3) / 2
  let contentWidth := max 10 (columnWidth - 6)
  let leftNumS := if leftLine.type ≠ .empty then padStart4 lNum else "    "
  let rightNumS := if rightLine.type ≠ .empty then padStart4 rNum else "    "
  let leftC := applyScrollAndTruncate hOff contentWidth (getDisplayContent leftLine)
  let rightC := applyScrollAndTruncate hOff contentWidth (getDisplayContent rightLine)
  .content
    (padToWidth (leftNumS ++ getPrefixForType leftLine.type ++ leftC) columnWidth)
    (padToWidth (rightNumS ++ getPrefixForType rightLine.type ++ rightC) columnWidth)

/-- Content row of the dump renderer (`dumpDiff`). -/
def buildRowDump (cfg : RenderCfg) (leftLine rightLine : DiffLine)
    (lNum rNum : Nat) : DisplayRow :=
  let columnWidth := (cfg.width - 3) / 2
  let contentWidth := max 10 (columnWidth - 6)
  let leftNumS := if leftLine.type ≠ .empty then padStart4 lNum else "    "
  let rightNumS := if rightLine.type ≠ .empty then padStart4 rNum else "    "
  let leftC := if leftLine.type = .empty then "⋯" else
    dumpTruncate leftLine.content contentWidth
  let rightC := if rightLine.type = .empty then "⋯" else
    dumpTruncate rightLine.content contentWidth
  .content
    (padToWidth (leftNumS ++ getPrefixForType leftLine.type ++ leftC) columnWidth)
    (padToWidth (rightNumS ++ getPrefixForType rightLine.type ++ rightC) columnWidth)

/-- Line-number advance for a possibly-absent line in a skipped row
(`if (leftLine && leftLine.type !== 'empty') leftLineNum++`). -/
def skipAdvance (l : Option DiffLine) (n : Nat) : Nat :=
  match l with
  | some line => if line.type ≠ .empty then n + 1 else n
  | none => n

/-- Inner row loop of the interactive `renderLines` over one section.  `fuel`
bounds the iteration count (`maxLines + 1` suffices, since `i` strictly
increases); `i` is the loop variable, `g` the global row index. -/
def renderInner (cfg : RenderCfg) (hOff : Nat) (sec : DiffSection)
    (maxLines : Nat) (shouldFold : Bool) (foldedCount : Nat) :
    Nat → Nat → Nat → Nat → Nat → LoopOut
  | 0, _, g, ln, rn => ⟨[], g, ln, rn, false⟩
  | fuel + 1, i, g, ln, rn =>
    if i < maxLines then
      if shouldFold = true ∧ i = contextLines then
        let emitted : List (Nat × DisplayRow) :=
          if cfg.scrollOffset ≤ g ∧ g < cfg.scrollOffset + cfg.viewHeight then
            [(g, .fold foldedCount)]
          else []
        let out := renderInner cfg hOff sec maxLines shouldFold foldedCount fuel
          (maxLines - contextLines) (g + 1) (ln + foldedCount) (rn + foldedCount)
        ⟨emitted ++ out.rows, out.gIdx, out.leftNum, out.rightNum, out.stop⟩
      else if g < cfg.scrollOffset then
        renderInner cfg hOff sec maxLines shouldFold foldedCount fuel
          (i + 1) (g + 1) (skipAdvance sec.leftLines[i]? ln) (skipAdvance sec.rightLines[i]? rn)
      else if cfg.scrollOffset + cfg.viewHeight ≤ g then
        ⟨[], g, ln, rn, true⟩
      else
        let leftLine := (sec.leftLines[i]?).getD ⟨"", .empty⟩
        let rightLine := (sec.rightLines[i]?).getD ⟨"", .empty⟩
        let row := buildRowInteractive cfg hOff leftLine rightLine ln rn
        let ln2 := if leftLine.type ≠ .empty then ln + 1 else ln
        let rn2 := if rightLine.type ≠ .empty then rn + 1 else rn
        let out := renderInner cfg hOff sec maxLines shouldFold foldedCount fuel
          (i + 1) (g + 1) ln2 rn2
        ⟨(g, row) :: out.rows, out.gIdx, out.leftNum, out.rightNum, out.stop⟩
    else ⟨[], g, ln, rn, false⟩

/-- Inner row loop of `dumpDiff` over one section.  Differences from
`renderInner`, as in the source: the fold placeholder is printed without a
viewport check; the scroll skip is guarded by `scrollOffset > 0`; the
viewport cut-off is guarded by `viewHeight > 0`. -/
def dumpInner (cfg : RenderCfg) (sec : DiffSection)
    (maxLines : Nat) (shouldFold : Bool) (foldedCount : Nat) :
    Nat → Nat → Nat → Nat → Nat → LoopOut
  | 0, _, g, ln, rn => ⟨[], g, ln, rn, false⟩
  | fuel + 1, i, g, ln, rn =>
    if i < maxLines then
      if shouldFold = true ∧ i = contextLines then
        let out := dumpInner cfg sec maxLines shouldFold foldedCount fuel
          (maxLines - contextLines) (g + 1) (ln + foldedCount) (rn + foldedCount)
        ⟨(g, .fold foldedCount) :: out.rows, out.gIdx, out.leftNum, out.rightNum, out.stop⟩
      else if 0 < cfg.scrollOffset ∧ g < cfg.scrollOffset then
        dumpInner cfg sec maxLines shouldFold foldedCount fuel
          (i + 1) (g + 1) (skipAdvance sec.leftLines[i]? ln) (skipAdvance sec.rightLines[i]? rn)
      else if 0 < cfg.viewHeight ∧ cfg.scrollOffset + cfg.viewHeight ≤ g then
        ⟨[], g, ln, rn, true⟩
      else
        let leftLine := (sec.leftLines[i]?).getD ⟨"", .empty⟩
        let rightLine := (sec.rightLines[i]?).getD ⟨"", .empty⟩
        let row := buildRowDump cfg leftLine rightLine ln rn
        let ln2 := if leftLine.type ≠ .empty then ln + 1 else ln
        let rn2 := if rightLine.type ≠ .empty then rn + 1 else rn
        let out := dumpInner cfg sec maxLines shouldFold foldedCount fuel
          (i + 1) (g + 1) ln2 rn2
        ⟨(g, row) :: out.rows, out.gIdx, out.leftNum, out.rightNum, out.stop⟩
    else ⟨[], g, ln, rn, false⟩

/-- `shouldFold` of either renderer for one section. -/
def sectionShouldFold (foldingEnabled : Bool) (sec : DiffSection) : Bool :=
  foldingEnabled && !(hasChanges sec) && decide (contextLines * 2 + 1 < rawRowLength sec)

/-- Outer loop of `renderLines`: walk the sections, stopping once the
viewport is full. -/
def renderSectionsLoop (cfg : RenderCfg) (hOff : Nat) :
    List DiffSection → Nat → Nat → Nat → List (Nat × DisplayRow)
  | [], _, _, _ => []
  | sec :: rest, g, ln, rn =>
    let maxLines := rawRowLength sec
    let shouldFold := sectionShouldFold cfg.foldingEnabled sec
    let foldedCount := if shouldFold then maxLines - contextLines * 2 else 0
    let out := renderInner cfg hOff sec maxLines shouldFold foldedCount
      (maxLines + 1) 0 g ln rn
    out.rows ++ (if out.stop then [] else renderSectionsLoop cfg hOff rest out.gIdx out.leftNum out.rightNum)

/-- Outer loop of `dumpDiff`. -/
def dumpSectionsLoop (cfg : RenderCfg) :
    List DiffSection → Nat → Nat → Nat → List (Nat × DisplayRow)
  | [], _, _, _ => []
  | sec :: rest, g, ln, rn =>
    let maxLines := rawRowLength sec
    let shouldFold := sectionShouldFold cfg.foldingEnabled sec
    let foldedCount := if shouldFold then maxLines - contextLines * 2 else 0
    let out := dumpInner cfg sec maxLines shouldFold foldedCount
      (maxLines + 1) 0 g ln rn
    out.rows ++ (if out.stop then [] else dumpSectionsLoop cfg rest out.gIdx out.leftNum out.rightNum)

/-- The row list the interactive renderer produces for a document pair
(line-number counters start at 1, global row index at 0). -/
def interactiveRows (left right : String) (cfg : RenderCfg) (hOff : Nat) :
    List (Nat × DisplayRow) :=
  renderSectionsLoop cfg hOff (computeDiffSections left right) 0 1 1

/-- The row list `dumpDiff` prints for a document pair (excluding the
`---`/`+++` header lines, which are file labels, not display rows). -/
def dumpRows (left right : String) (cfg : RenderCfg) : List (Nat × DisplayRow) :=
  dumpSectionsLoop cfg (computeDiffSections left right) 0 1 1

/-- A row (paired with its global index) lies inside the visible window
`[scrollOffset, scrollOffset + viewHeight)`. -/
def inWindow (cfg : RenderCfg) (p : Nat × DisplayRow) : Bool :=
  decide (cfg.scrollOffset ≤ p.1 ∧ p.1 < cfg.scrollOffset + cfg.viewHeight)

/-- Keep only the rows inside the visible window (loop state preserved). -/
def filterOut (cfg : RenderCfg) (o : LoopOut) : LoopOut :=
  ⟨o.rows.filter (inWindow cfg), o.gIdx, o.leftNum, o.rightNum, o.stop⟩

/-! ## Spec-side descriptions of the changed-section navigation targets -/

/-- Each section paired with its cumulative start row in the fold-aware
display (spec-side description used to characterise the jump commands). -/
def sectionStartsAux (foldingEnabled : Bool) :
    List DiffSection → Int → List (Int × DiffSection)
  | [], _ => []
  | s :: rest, acc =>
    (acc, s) :: sectionStartsAux foldingEnabled rest
      (acc + (getSectionDisplayLines foldingEnabled s : Int))

/-- Start rows of all sections in display order. -/
def sectionStarts (foldingEnabled : Bool) (secs : List DiffSection) :
    List (Int × DiffSection) :=
  sectionStartsAux foldingEnabled secs 0

/-- Spec-side target of the next-changed-section command: the cumulative
start row of the first section in display order whose start row is strictly
greater than the cursor and which has changes; the cursor itself if none. -/
def specNextTarget (foldingEnabled : Bool) (secs : List DiffSection)
    (cursor : Int) : Int :=
  match (sectionStarts foldingEnabled secs).find?
      (fun p => decide (cursor < p.1) && hasChanges p.2) with
  | some p => p.1
  | none => cursor

/-- Spec-side target of the previous-changed-section command: the start row
of the last changed section whose start row is strictly less than the cursor;
the cursor itself if none. -/
def specPrevTarget (foldingEnabled : Bool) (secs : List DiffSection)
    (cursor : Int) : Int :=
  match ((sectionStarts foldingEnabled secs).filter
      (fun p => decide (p.1 < cursor) && hasChanges p.2)).getLast? with
  | some p => p.1
  | none => cursor

/-! ## Concrete fixtures used by witnesses and counterexamples -/

/-- A three-section display: equal, changed, equal (navigation fixture). -/
def wSecsNav : List DiffSection :=
  [⟨0, 0, [⟨"a", .equal⟩], [⟨"a", .equal⟩]⟩,
   ⟨1, 1, [⟨"b", .remove⟩], [⟨"x", .add⟩]⟩,
   ⟨2, 2, [⟨"c", .equal⟩], [⟨"c", .equal⟩]⟩]

/-- An unchanged section of eight equal rows (long enough to fold). -/
def wSec8 : DiffSection :=
  ⟨0, 0,
    ["a", "b", "c", "d", "e", "f", "g", "h"].map fun s => ⟨s, .equal⟩,
    ["a", "b", "c", "d", "e", "f", "g", "h"].map fun s => ⟨s, .equal⟩⟩

/-- An eight-line document (every line distinct). -/
def wDoc8 : String := "a\nb\nc\nd\ne\nf\ng\nh"

/-! ## Basic lemmas about the section aligner -/

theorem mergedLeftCol_length (lines : List String) (maxLen : Nat) :
    (mergedLeftCol lines maxLen).length = maxLen := by
  simp [mergedLeftCol]

theorem mergedRightCol_length (lines : List String) (maxLen : Nat) :
    (mergedRightCol lines maxLen).length = maxLen := by
  simp [mergedRightCol]

theorem singleSection_cols_eq (c : Change) (li ri : Nat) :
    (singleSection c li ri).leftLines.length = (singleSection c li ri).rightLines.length := by
  unfold singleSection
  by_cases h1 : c.added <;> by_cases h2 : c.removed <;> simp [h1, h2]

theorem mem_pushSection {s' s : DiffSection} {rest : List DiffSection}
    (h : s' ∈ pushSection s rest) : s' = s ∨ s' ∈ rest := by
  unfold pushSection at h
  split at h
  · rw [List.mem_cons] at h
    exact h
  · exact Or.inr h

theorem sectionsFromChanges_cols_eq (changes : List Change) (li ri : Nat) :
    ∀ s ∈ sectionsFromChanges changes li ri,
      s.leftLines.length = s.rightLines.length := by
  induction changes, li, ri using sectionsFromChanges.induct with
  | case1 li ri =>
    intro s hs
    simp [sectionsFromChanges] at hs
  | case2 c li ri =>
    intro s hs
    rw [sectionsFromChanges] at hs
    rcases mem_pushSection hs with h | h
    · subst h; exact singleSection_cols_eq ..
    · simp at h
  | case3 c next rest2 li ri hcond ih =>
    intro s hs
    rw [sectionsFromChanges] at hs
    rw [if_pos hcond] at hs
    rcases mem_pushSection hs with h | h
    · subst h; simp [mergedLeftCol_length, mergedRightCol_length]
    · exact ih _ h
  | case4 c next rest2 li ri hcond ih =>
    intro s hs
    rw [sectionsFromChanges] at hs
    rw [if_neg hcond] at hs
    rcases mem_pushSection hs with h | h
    · subst h; exact singleSection_cols_eq ..
    · exact ih _ h

/-- C1: For every pair of input documents, every Section produced by
`computeDiffSections` has left and right columns of equal length:
`leftLines.length == rightLines.length` for each section in the returned
list. -/
theorem claim1_section_columns_equal_length (left right : String)
    (s : DiffSection) (hs : s ∈ computeDiffSections left right) :
    s.leftLines.length = s.rightLines.length :=
  sectionsFromChanges_cols_eq _ _ _ _ hs

/-- C1 witness: the single merged section produced for `"a"` vs `"b"` has
columns of equal length. -/
theorem claim1_witness :
    (⟨0, 0, [⟨"a", .remove⟩], [⟨"b", .add⟩]⟩ : DiffSection).leftLines.length =
      (⟨0, 0, [⟨"a", .remove⟩], [⟨"b", .add⟩]⟩ : DiffSection).rightLines.length :=
  claim1_section_columns_equal_length "a" "b" _ (by decide)

/-- C8: When both input documents are the empty string, `computeDiffSections`
returns exactly one section, that section has exactly one row, and that row is
typed Equal with empty content on both sides (not zero sections). -/
theorem claim8_empty_documents_single_equal_section :
    computeDiffSections "" "" =
      [⟨0, 0, [⟨"", .equal⟩], [⟨"", .equal⟩]⟩] := by
  decide

/-- C5: For every section, when folding is enabled, `displayRowCount` equals
`2*context+1` (context = 3) if the section has no changes and its raw row
length exceeds `2*context+1`, and equals the raw row length otherwise; when
folding is disabled, `displayRowCount` always equals the raw row length. -/
theorem claim5_display_row_count (foldingEnabled : Bool) (s : DiffSection) :
    (foldingEnabled = true → hasChanges s = false → 2 * contextLines + 1 < rawRowLength s →
      getSectionDisplayLines foldingEnabled s = 2 * contextLines + 1) ∧
    (foldingEnabled = true → (hasChanges s = true ∨ rawRowLength s ≤ 2 * contextLines + 1) →
      getSectionDisplayLines foldingEnabled s = rawRowLength s) ∧
    (foldingEnabled = false → getSectionDisplayLines foldingEnabled s = rawRowLength s) := by
  refine ⟨?_, ?_, ?_⟩
  · intro hf hc hlen
    simp only [getSectionDisplayLines, hf, hc]
    have : contextLines * 2 + 1 < rawRowLength s := by omega
    simp [this]
    omega
  · intro hf hc
    simp only [getSectionDisplayLines, hf]
    rcases hc with hc | hc
    · simp [hc]
    · have : ¬ (contextLines * 2 + 1 < rawRowLength s) := by
        simp only [contextLines] at *; omega
      simp [this]
  · intro hf
    simp [getSectionDisplayLines, hf]

/-- C5 witness: an unchanged eight-row section folds to seven display rows
when folding is on and keeps its eight raw rows when folding is off. -/
theorem claim5_witness :
    getSectionDisplayLines true wSec8 = 2 * contextLines + 1 ∧
      getSectionDisplayLines false wSec8 = rawRowLength wSec8 :=
  ⟨(claim5_display_row_count true wSec8).1 rfl (by decide) (by decide),
   (claim5_display_row_count false wSec8).2.2 rfl⟩

theorem autoScroll_editedRightContent (viewHeight : Nat) (st : AppState) :
    (autoScroll viewHeight st).editedRightContent = st.editedRightContent := by
  unfold autoScroll
  split_ifs <;> rfl

theorem autoScroll_undoStack (viewHeight : Nat) (st : AppState) :
    (autoScroll viewHeight st).undoStack = st.undoStack := by
  unfold autoScroll
  split_ifs <;> rfl

/-- C9: Pure navigation commands (line up/down, page up/down, next/previous
changed-section, horizontal scroll, fold toggle) never modify the working
document's text and never push an entry onto the UndoStack; the only remaining
`setUndoStack` call site, `undoLastEdit`, only ever pops (so UndoStack entries
are created only by the edit operations `copyLeftToRight`/`copyRightToLeft`). -/
theorem claim9_navigation_is_pure (left : String) (viewHeight : Nat)
    (cmd : NavCommand) (st : AppState) :
    (applyNav left viewHeight cmd st).editedRightContent = st.editedRightContent ∧
    (applyNav left viewHeight cmd st).undoStack = st.undoStack ∧
    (undoLastEdit st).undoStack.length ≤ st.undoStack.length := by
  refine ⟨?_, ?_, ?_⟩
  · cases cmd <;>
      simp [applyNav, autoScroll_editedRightContent]
  · cases cmd <;>
      simp [applyNav, autoScroll_undoStack]
  · unfold undoLastEdit
    cases h : st.undoStack.getLast? with
    | none => simp
    | some prev =>
      simp [List.length_dropLast]

/-- C4: For every state in which the current section under the cursor has
changes, performing `copyLeftToRight` and then immediately performing undo
yields a working document whose text equals, byte for byte, the working
document's text before the copy. -/
theorem claim4_copy_then_undo_restores (left : String) (st : AppState)
    (si : Nat) (off : Int) (sec : DiffSection)
    (hinfo : getCurrentLineInfoFn st.foldingEnabled st.currentLine
      (stateSections left st) = some (si, off))
    (hsec : (stateSections left st)[si]? = some sec)
    (hch : hasChanges sec = true) :
    (undoLastEdit (copyLeftToRight left st)).editedRightContent =
      st.editedRightContent := by
  simp only [copyLeftToRight, hinfo, hsec, hch]
  simp [undoLastEdit, List.getLast?_concat, List.dropLast_concat]

/-- C4 witness: with left document `"a"` and working document `"b"`, the
cursor sits on the single changed section; copy-then-undo restores `"b"`. -/
theorem claim4_witness :
    (undoLastEdit (copyLeftToRight "a" ⟨0, 0, true, 0, "b", []⟩)).editedRightContent =
      (⟨0, 0, true, 0, "b", []⟩ : AppState).editedRightContent :=
  claim4_copy_then_undo_restores "a" ⟨0, 0, true, 0, "b", []⟩ 0 0
    ⟨0, 0, [⟨"a", .remove⟩], [⟨"b", .add⟩]⟩ (by decide) (by decide) (by decide)

/-- C2 counterexample: with left document `"x"`, original right `"x"` and
working document `"y\nx"`, the cursor row 1 sits on the trailing all-equal
section, whose index (1) exceeds the single-section original alignment.
`copyRightToLeft` is then not a no-op — it pushes an undo snapshot — yet it
applies no edit (its splice is never reached and the working document is
unchanged), refuting the claim that every path either fully applies and
pushes, or changes neither the document nor the undo stack. -/
theorem claim2_counterexample :
    (copyRightToLeft "x" "x" ⟨1, 0, true, 0, "y\nx", []⟩).undoStack = ["y\nx"] ∧
    (copyRightToLeft "x" "x" ⟨1, 0, true, 0, "y\nx", []⟩).editedRightContent = "y\nx" ∧
    copyRightToLeft "x" "x" ⟨1, 0, true, 0, "y\nx", []⟩ ≠ (⟨1, 0, true, 0, "y\nx", []⟩ : AppState) ∧
    rightSpliceTextOpt "x" "x" ⟨1, 0, true, 0, "y\nx", []⟩ = none := by
  decide

/-- C2 (amended): every editing operation either is a complete no-op or pushes
exactly one undo snapshot (the pre-operation working document).
`copyLeftToRight` applies its splice whenever it pushes; `copyRightToLeft`
applies its splice whenever the freshly computed original alignment has a
section at the current index, and otherwise pushes the snapshot while leaving
the working document unchanged (the one non-atomic path). -/
theorem claim2_edit_atomicity (left rightOrig : String) (st : AppState) :
    (copyLeftToRight left st = st ∨
      ((copyLeftToRight left st).undoStack = st.undoStack ++ [st.editedRightContent] ∧
        (copyLeftToRight left st).editedRightContent = leftSpliceText left st)) ∧
    (copyRightToLeft left rightOrig st = st ∨
      ((copyRightToLeft left rightOrig st).undoStack = st.undoStack ++ [st.editedRightContent] ∧
        (copyRightToLeft left rightOrig st).editedRightContent =
          (rightSpliceTextOpt left rightOrig st).getD st.editedRightContent)) := by
  constructor
  · cases hinfo : getCurrentLineInfoFn st.foldingEnabled st.currentLine (stateSections left st) with
    | none => exact Or.inl (by simp [copyLeftToRight, hinfo])
    | some p =>
      obtain ⟨si, off⟩ := p
      cases hsec : (stateSections left st)[si]? with
      | none => exact Or.inl (by simp [copyLeftToRight, hinfo, hsec])
      | some sec =>
        by_cases hch : hasChanges sec = true
        · exact Or.inr (by simp [copyLeftToRight, hinfo, hsec, hch])
        · exact Or.inl (by
            simp only [Bool.not_eq_true] at hch
            simp [copyLeftToRight, hinfo, hsec, hch])
  · cases hinfo : getCurrentLineInfoFn st.foldingEnabled st.currentLine (stateSections left st) with
    | none => exact Or.inl (by simp [copyRightToLeft, hinfo])
    | some p =>
      obtain ⟨si, off⟩ := p
      cases hsec : (stateSections left st)[si]? with
      | none => exact Or.inl (by simp [copyRightToLeft, hinfo, hsec])
      | some sec =>
        refine Or.inr ?_
        cases hsp : rightSpliceTextOpt left rightOrig st with
        | none => simp [copyRightToLeft, hinfo, hsec, hsp]
        | some txt => simp [copyRightToLeft, hinfo, hsec, hsp]

/-- C10 counterexample: with left `"a"`, original right `"a"` and working
document `"b\na"`, cursor row 1 sits on an all-Equal section, and
`copyRightToLeft` does push an undo snapshot — but it does not perform its
splice (the original alignment has no section at index 1, so the operation
returns after the push with the working document untouched), refuting the
universal "still pushes ... and performs its splice". -/
theorem claim10_counterexample :
    getCurrentLineInfoFn true 1 (stateSections "a" ⟨1, 0, true, 0, "b\na", []⟩) = some (1, 0) ∧
    (stateSections "a" ⟨1, 0, true, 0, "b\na", []⟩)[1]? =
      some ⟨0, 1, [⟨"a", .equal⟩], [⟨"a", .equal⟩]⟩ ∧
    hasChanges ⟨0, 1, [⟨"a", .equal⟩], [⟨"a", .equal⟩]⟩ = false ∧
    (copyRightToLeft "a" "a" ⟨1, 0, true, 0, "b\na", []⟩).undoStack = ["b\na"] ∧
    rightSpliceTextOpt "a" "a" ⟨1, 0, true, 0, "b\na", []⟩ = none ∧
    (copyRightToLeft "a" "a" ⟨1, 0, true, 0, "b\na", []⟩).editedRightContent = "b\na" := by
  decide

/-- C10 (amended): unlike `copyLeftToRight`, which returns without changing
any state when the current section has no changes, `copyRightToLeft` has no
such guard: for every state whose current section is entirely Equal it still
pushes an undo snapshot, and it performs its splice whenever the freshly
computed original alignment has a section at the current index. -/
theorem claim10_copy_right_no_guard (left rightOrig : String) (st : AppState)
    (si : Nat) (off : Int) (sec : DiffSection)
    (hinfo : getCurrentLineInfoFn st.foldingEnabled st.currentLine
      (stateSections left st) = some (si, off))
    (hsec : (stateSections left st)[si]? = some sec)
    (hch : hasChanges sec = false) :
    copyLeftToRight left st = st ∧
    (copyRightToLeft left rightOrig st).undoStack =
      st.undoStack ++ [st.editedRightContent] ∧
    (∀ txt, rightSpliceTextOpt left rightOrig st = some txt →
      (copyRightToLeft left rightOrig st).editedRightContent = txt) := by
  refine ⟨?_, ?_, ?_⟩
  · simp [copyLeftToRight, hinfo, hsec, hch]
  · cases hsp : rightSpliceTextOpt left rightOrig st with
    | none => simp [copyRightToLeft, hinfo, hsec, hsp]
    | some txt => simp [copyRightToLeft, hinfo, hsec, hsp]
  · intro txt htxt
    simp [copyRightToLeft, hinfo, hsec, htxt]

/-- C10 witness: with both documents `"a"` and an unedited working document,
the (all-Equal) current section still causes a push, and the splice is
performed, reinstalling `"a"`. -/
theorem claim10_witness :
    copyLeftToRight "a" ⟨0, 0, true, 0, "a", []⟩ = (⟨0, 0, true, 0, "a", []⟩ : AppState) ∧
    (copyRightToLeft "a" "a" ⟨0, 0, true, 0, "a", []⟩).undoStack = ["a"] ∧
    (copyRightToLeft "a" "a" ⟨0, 0, true, 0, "a", []⟩).editedRightContent = "a" := by
  have h := claim10_copy_right_no_guard "a" "a" ⟨0, 0, true, 0, "a", []⟩ 0 0
    ⟨0, 0, [⟨"a", .equal⟩], [⟨"a", .equal⟩]⟩ (by decide) (by decide) (by decide)
  exact ⟨h.1, h.2.1, h.2.2 "a" (by decide)⟩

/-! ## Changed-section navigation (C6) -/

theorem display_pos_of_hasChanges (foldingEnabled : Bool) (s : DiffSection)
    (h : hasChanges s = true) : 0 < getSectionDisplayLines foldingEnabled s := by
  have hraw : 0 < rawRowLength s := by
    unfold hasChanges at h
    have h2 : s.leftLines.any (fun l => l.type ≠ .equal) = true ∨
        s.rightLines.any (fun l => l.type ≠ .equal) = true := by
      simpa using h
    rcases h2 with ha | ha <;>
    · rcases List.any_eq_true.mp ha with ⟨l, hl, _⟩
      have := List.length_pos.mpr (List.ne_nil_of_mem hl)
      unfold rawRowLength
      omega
  unfold getSectionDisplayLines
  simp [h, hraw]

theorem sectionStartsAux_le (foldingEnabled : Bool) :
    ∀ (secs : List DiffSection) (acc : Int) (p : Int × DiffSection),
      p ∈ sectionStartsAux foldingEnabled secs acc → acc ≤ p.1 := by
  intro secs
  induction secs with
  | nil => intro acc p hp; simp [sectionStartsAux] at hp
  | cons hd rest ih =>
    intro acc p hp
    rw [sectionStartsAux, List.mem_cons] at hp
    rcases hp with hp | hp
    · subst hp; exact le_refl _
    · have := ih _ _ hp
      have hn : (0 : Int) ≤ (getSectionDisplayLines foldingEnabled hd : Int) := by positivity
      omega

theorem sectionStartsAux_getElem_secs (foldingEnabled : Bool) :
    ∀ (secs : List DiffSection) (acc : Int) (j : Nat) (start : Int) (s : DiffSection),
      (sectionStartsAux foldingEnabled secs acc)[j]? = some (start, s) →
      secs[j]? = some s := by
  intro secs
  induction secs with
  | nil => intro acc j start s h; simp [sectionStartsAux] at h
  | cons hd rest ih =>
    intro acc j start s h
    rw [sectionStartsAux] at h
    cases j with
    | zero =>
      simp at h
      simp [h.2]
    | succ j =>
      simp only [List.getElem?_cons_succ] at h ⊢
      exact ih _ _ _ _ h

theorem infoAt_start (foldingEnabled : Bool) :
    ∀ (secs : List DiffSection) (j i : Nat) (acc start : Int) (s : DiffSection),
      (sectionStartsAux foldingEnabled secs acc)[j]? = some (start, s) →
      0 < getSectionDisplayLines foldingEnabled s →
      getCurrentLineInfoAux foldingEnabled start secs i acc = some (i + j, 0) := by
  intro secs
  induction secs with
  | nil => intro j i acc start s h _; simp [sectionStartsAux] at h
  | cons hd rest ih =>
    intro j i acc start s h hpos
    rw [sectionStartsAux] at h
    cases j with
    | zero =>
      simp only [List.getElem?_cons_zero, Option.some.injEq, Prod.mk.injEq] at h
      obtain ⟨h1, h2⟩ := h
      subst h1
      subst h2
      rw [getCurrentLineInfoAux]
      have hc : acc < acc + (getSectionDisplayLines foldingEnabled hd : Int) := by
        omega
      simp [hc]
    | succ j =>
      simp only [List.getElem?_cons_succ] at h
      have hmem : (start, s) ∈ sectionStartsAux foldingEnabled rest
          (acc + (getSectionDisplayLines foldingEnabled hd : Int)) :=
        List.getElem?_mem h
      have hge := sectionStartsAux_le foldingEnabled _ _ _ hmem
      rw [getCurrentLineInfoAux]
      have hc : ¬ (start < acc + (getSectionDisplayLines foldingEnabled hd : Int)) := by
        simp only at hge
        omega
      simp only [hc, if_false]
      have := ih j (i + 1) _ _ _ h hpos
      rw [this]
      congr 2
      omega

theorem jumpToNextAux_eq (foldingEnabled : Bool) (cursor : Int) :
    ∀ (secs : List DiffSection) (acc : Int),
      jumpToNextAux foldingEnabled cursor secs acc =
        (match (sectionStartsAux foldingEnabled secs acc).find?
            (fun p => decide (cursor < p.1) && hasChanges p.2) with
         | some p => p.1
         | none => cursor) := by
  intro secs
  induction secs with
  | nil => intro acc; rfl
  | cons hd rest ih =>
    intro acc
    rw [jumpToNextAux, sectionStartsAux, List.find?_cons]
    by_cases h1 : cursor < acc
    · by_cases h2 : hasChanges hd = true
      · simp [h1, h2]
      · simp only [Bool.not_eq_true] at h2
        simp [h1, h2, ih]
    · simp [h1, ih]

theorem getLastQ_cons {α : Type} (a : α) (l : List α) :
    (a :: l).getLast? = some (l.getLast?.getD a) := by
  cases h : l.getLast? <;> simp [List.getLast?_cons, h]

theorem jumpToPrevAux_eq (foldingEnabled : Bool) (cursor : Int) :
    ∀ (secs : List DiffSection) (acc best : Int),
      jumpToPrevAux foldingEnabled cursor secs acc best =
        (match ((sectionStartsAux foldingEnabled secs acc).filter
            (fun p => decide (p.1 < cursor) && hasChanges p.2)).getLast? with
         | some p => p.1
         | none => best) := by
  intro secs
  induction secs with
  | nil => intro acc best; rfl
  | cons hd rest ih =>
    intro acc best
    simp only [jumpToPrevAux, sectionStartsAux, List.filter_cons]
    by_cases h1 : acc < cursor
    · by_cases h2 : hasChanges hd = true
      · have hdec : decide ((acc : Int) < cursor) = true := by simpa using h1
        simp only [hdec, h2, Bool.and_self, if_true, and_self, ih]
        cases hL : ((sectionStartsAux foldingEnabled rest
            (acc + (getSectionDisplayLines foldingEnabled hd : Int))).filter
            (fun p => decide (p.1 < cursor) && hasChanges p.2)).getLast? with
        | none => simp [getLastQ_cons, hL, h1, h2]
        | some q => simp [getLastQ_cons, hL, h1, h2]
      · have h2f : hasChanges hd = false := by
          simpa using h2
        have hcond : ¬ (acc < cursor ∧ hasChanges hd = true) := by
          simp [h2f]
        simp only [h2f, hcond, Bool.and_false, if_false, ih]
        simp
    · have hcond : ¬ (acc < cursor ∧ hasChanges hd = true) := by
        simp [h1]
      have hdec : decide ((acc, hd).1 < cursor) = false := by
        simpa using h1
      simp only [hdec, hcond, Bool.false_and, if_false, ih]
      simp

/-- C6: The next-changed-section command moves the cursor to the cumulative
start row of the first section in display order whose start row is strictly
greater than the cursor and which has changes, and is a no-op if no such
section exists; the previous-changed-section command moves the cursor to the
start row of the last changed section whose start row is strictly less than
the cursor, and is a no-op if none exists; neither command ever places the
cursor inside an all-Equal section. -/
theorem claim6_changed_section_navigation (foldingEnabled : Bool)
    (secs : List DiffSection) (cursor : Int) :
    jumpToNextSection foldingEnabled secs cursor =
      specNextTarget foldingEnabled secs cursor ∧
    jumpToPrevSection foldingEnabled secs cursor =
      specPrevTarget foldingEnabled secs cursor ∧
    (jumpToNextSection foldingEnabled secs cursor ≠ cursor →
      ∃ j s, getCurrentLineInfoFn foldingEnabled
          (jumpToNextSection foldingEnabled secs cursor) secs = some (j, 0) ∧
        secs[j]? = some s ∧ hasChanges s = true) ∧
    (jumpToPrevSection foldingEnabled secs cursor ≠ cursor →
      ∃ j s, getCurrentLineInfoFn foldingEnabled
          (jumpToPrevSection foldingEnabled secs cursor) secs = some (j, 0) ∧
        secs[j]? = some s ∧ hasChanges s = true) := by
  have hnext : jumpToNextSection foldingEnabled secs cursor =
      specNextTarget foldingEnabled secs cursor := by
    rw [jumpToNextSection, specNextTarget, sectionStarts, jumpToNextAux_eq]
  have hprev : jumpToPrevSection foldingEnabled secs cursor =
      specPrevTarget foldingEnabled secs cursor := by
    rw [jumpToPrevSection, specPrevTarget, sectionStarts, jumpToPrevAux_eq]
  refine ⟨hnext, hprev, ?_, ?_⟩
  · intro hne
    rw [hnext] at hne ⊢
    cases hF : (sectionStartsAux foldingEnabled secs 0).find?
        (fun p => decide (cursor < p.1) && hasChanges p.2) with
    | none =>
      rw [specNextTarget, sectionStarts, hF] at hne
      simp at hne
    | some p =>
      obtain ⟨start, s⟩ := p
      have hP := List.find?_some hF
      obtain ⟨hlt, hch⟩ : cursor < start ∧ hasChanges s = true := by simpa using hP
      have hmem := List.mem_of_find?_eq_some hF
      obtain ⟨j, hjlt, hje⟩ := List.getElem_of_mem hmem
      have hj2 : (sectionStartsAux foldingEnabled secs 0)[j]? = some (start, s) := by
        simp [List.getElem?_eq_getElem hjlt, hje]
      refine ⟨j, s, ?_, ?_, hch⟩
      · rw [specNextTarget, sectionStarts, hF]
        have := infoAt_start foldingEnabled secs j 0 0 start s hj2
          (display_pos_of_hasChanges foldingEnabled s hch)
        rw [getCurrentLineInfoFn]
        simpa using this
      · exact sectionStartsAux_getElem_secs foldingEnabled secs 0 j start s hj2
  · intro hne
    rw [hprev] at hne ⊢
    cases hL : ((sectionStartsAux foldingEnabled secs 0).filter
        (fun p => decide (p.1 < cursor) && hasChanges p.2)).getLast? with
    | none =>
      rw [specPrevTarget, sectionStarts, hL] at hne
      simp at hne
    | some p =>
      obtain ⟨start, s⟩ := p
      have hmemf : ((start, s) : Int × DiffSection) ∈
          (sectionStartsAux foldingEnabled secs 0).filter
            (fun p => decide (p.1 < cursor) && hasChanges p.2) := by
        obtain ⟨hnil, heq⟩ := List.mem_getLast?_eq_getLast hL
        rw [heq]
        exact List.getLast_mem hnil
      obtain ⟨hmem, hPb⟩ := List.mem_filter.mp hmemf
      obtain ⟨hlt, hch⟩ : start < cursor ∧ hasChanges s = true := by simpa using hPb
      obtain ⟨j, hjlt, hje⟩ := List.getElem_of_mem hmem
      have hj2 : (sectionStartsAux foldingEnabled secs 0)[j]? = some (start, s) := by
        simp [List.getElem?_eq_getElem hjlt, hje]
      refine ⟨j, s, ?_, ?_, hch⟩
      · rw [specPrevTarget, sectionStarts, hL]
        have := infoAt_start foldingEnabled secs j 0 0 start s hj2
          (display_pos_of_hasChanges foldingEnabled s hch)
        rw [getCurrentLineInfoFn]
        simpa using this
      · exact sectionStartsAux_getElem_secs foldingEnabled secs 0 j start s hj2

/-- C6 witness: on an equal/changed/equal section list, next from row 0 and
previous from row 2 both land on the changed section's start row 1. -/
theorem claim6_witness :
    jumpToNextSection true wSecsNav 0 = specNextTarget true wSecsNav 0 ∧
    jumpToPrevSection true wSecsNav 2 = specPrevTarget true wSecsNav 2 ∧
    (∃ j s, getCurrentLineInfoFn true (jumpToNextSection true wSecsNav 0) wSecsNav =
        some (j, 0) ∧ wSecsNav[j]? = some s ∧ hasChanges s = true) ∧
    (∃ j s, getCurrentLineInfoFn true (jumpToPrevSection true wSecsNav 2) wSecsNav =
        some (j, 0) ∧ wSecsNav[j]? = some s ∧ hasChanges s = true) :=
  ⟨(claim6_changed_section_navigation true wSecsNav 0).1,
   (claim6_changed_section_navigation true wSecsNav 2).2.1,
   (claim6_changed_section_navigation true wSecsNav 0).2.2.1 (by decide),
   (claim6_changed_section_navigation true wSecsNav 2).2.2.2 (by decide)⟩

/-! ## Cursor range invariant (C7) -/

theorem foldl_add_init (g : DiffSection → Nat) :
    ∀ (l : List DiffSection) (init : Nat),
      l.foldl (fun a s => a + g s) init = init + (l.map g).sum := by
  intro l
  induction l with
  | nil => intro init; simp
  | cons hd rest ih =>
    intro init
    simp only [List.foldl_cons, List.map_cons, List.sum_cons, ih]
    omega

theorem totalDisplayLines_cons (foldingEnabled : Bool) (hd : DiffSection)
    (rest : List DiffSection) :
    totalDisplayLines foldingEnabled (hd :: rest) =
      getSectionDisplayLines foldingEnabled hd + totalDisplayLines foldingEnabled rest := by
  unfold totalDisplayLines
  rw [List.foldl_cons, foldl_add_init, foldl_add_init]
  omega

theorem display_pos_transfer (f f2 : Bool) (s : DiffSection)
    (h : 0 < getSectionDisplayLines f s) : 0 < getSectionDisplayLines f2 s := by
  have hraw : 0 < rawRowLength s := by
    unfold getSectionDisplayLines at h
    by_cases hf : (f && !(hasChanges s) &&
        decide (contextLines * 2 + 1 < rawRowLength s)) = true
    · have : contextLines * 2 + 1 < rawRowLength s := by
        have := hf
        simp only [Bool.and_eq_true, decide_eq_true_eq] at this
        exact this.2
      omega
    · rw [if_neg hf] at h
      exact h
  unfold getSectionDisplayLines
  dsimp only
  split <;> omega

theorem totalDisplayLines_pos_transfer (f f2 : Bool) :
    ∀ (secs : List DiffSection), 0 < totalDisplayLines f secs →
      0 < totalDisplayLines f2 secs := by
  intro secs
  induction secs with
  | nil => intro h; simp [totalDisplayLines] at h
  | cons hd rest ih =>
    intro h
    rw [totalDisplayLines_cons] at h ⊢
    rcases Nat.lt_or_ge 0 (getSectionDisplayLines f hd) with hp | hp
    · have := display_pos_transfer f f2 hd hp
      omega
    · have hr : 0 < totalDisplayLines f rest := by omega
      have := ih hr
      omega

theorem autoScroll_currentLine (viewHeight : Nat) (st : AppState) :
    (autoScroll viewHeight st).currentLine = st.currentLine := by
  unfold autoScroll
  split_ifs <;> rfl

theorem autoScroll_foldingEnabled (viewHeight : Nat) (st : AppState) :
    (autoScroll viewHeight st).foldingEnabled = st.foldingEnabled := by
  unfold autoScroll
  split_ifs <;> rfl

theorem jumpToNext_nonneg (foldingEnabled : Bool) (secs : List DiffSection)
    (cursor : Int) (h : 0 ≤ cursor) :
    0 ≤ jumpToNextSection foldingEnabled secs cursor := by
  rw [jumpToNextSection, jumpToNextAux_eq]
  cases hF : (sectionStartsAux foldingEnabled secs 0).find?
      (fun p => decide (cursor < p.1) && hasChanges p.2) with
  | none => simpa using h
  | some p =>
    have hmem := List.mem_of_find?_eq_some hF
    have := sectionStartsAux_le foldingEnabled secs 0 p hmem
    simpa using this

theorem jumpToPrev_nonneg (foldingEnabled : Bool) (secs : List DiffSection)
    (cursor : Int) (h : 0 ≤ cursor) :
    0 ≤ jumpToPrevSection foldingEnabled secs cursor := by
  rw [jumpToPrevSection, jumpToPrevAux_eq]
  cases hL : ((sectionStartsAux foldingEnabled secs 0).filter
      (fun p => decide (p.1 < cursor) && hasChanges p.2)).getLast? with
  | none => simpa using h
  | some p =>
    have hmemf : p ∈ (sectionStartsAux foldingEnabled secs 0).filter
        (fun p => decide (p.1 < cursor) && hasChanges p.2) := by
      obtain ⟨hnil, heq⟩ := List.mem_getLast?_eq_getLast hL
      rw [heq]
      exact List.getLast_mem hnil
    have hmem := (List.mem_filter.mp hmemf).1
    have := sectionStartsAux_le foldingEnabled secs 0 p hmem
    simpa using this

theorem clampCursor_total (left : String) (st : AppState) :
    totalRowsInt left (clampCursor left st) = totalRowsInt left st := by
  unfold clampCursor
  dsimp only
  split_ifs <;> simp [totalRowsInt, stateSections]

theorem clamp_in_range (left : String) (st2 : AppState)
    (h2 : 0 ≤ st2.currentLine) (ht2 : 0 < totalRowsInt left st2) :
    (0 ≤ (clampCursor left st2).currentLine ∧
      (clampCursor left st2).currentLine < totalRowsInt left (clampCursor left st2)) ∧
    (clampCursor left st2).currentLine =
      min st2.currentLine (totalRowsInt left st2 - 1) := by
  have htc := clampCursor_total left st2
  unfold clampCursor at htc ⊢
  dsimp only at htc ⊢
  split_ifs at htc ⊢ with hc
  · dsimp only at htc ⊢
    rw [htc]
    omega
  · omega

theorem applyNav_edited2 (left : String) (viewHeight : Nat) (cmd : NavCommand)
    (st : AppState) :
    (applyNav left viewHeight cmd st).editedRightContent = st.editedRightContent := by
  cases cmd <;> simp [applyNav, autoScroll_editedRightContent]

theorem applyNav_fold2 (left : String) (viewHeight : Nat) (cmd : NavCommand)
    (st : AppState) :
    (applyNav left viewHeight cmd st).foldingEnabled =
      (if cmd = NavCommand.foldToggle then !st.foldingEnabled else st.foldingEnabled) := by
  cases cmd <;> simp [applyNav, autoScroll_foldingEnabled]

/-- C7: The cursor always satisfies `0 <= cursor < totalVisibleRows`: after any
movement command followed by the clamp effect the cursor is back in range, and
the clamp effect re-clamps the cursor to `min(cursor, totalRows-1)` (also when
`totalVisibleRows` shrank, e.g. because folding was toggled on). -/
theorem claim7_cursor_always_in_range (left : String) (viewHeight : Nat)
    (cmd : NavCommand) (st : AppState)
    (h0 : 0 ≤ st.currentLine) (h1 : st.currentLine < totalRowsInt left st) :
    (0 ≤ (clampCursor left (applyNav left viewHeight cmd st)).currentLine ∧
      (clampCursor left (applyNav left viewHeight cmd st)).currentLine <
        totalRowsInt left (clampCursor left (applyNav left viewHeight cmd st))) ∧
    (clampCursor left (applyNav left viewHeight cmd st)).currentLine =
      min (applyNav left viewHeight cmd st).currentLine
        (totalRowsInt left (applyNav left viewHeight cmd st) - 1) := by
  have hTot : 0 < totalRowsInt left st := by omega
  have ht2 : 0 < totalRowsInt left (applyNav left viewHeight cmd st) := by
    have he := applyNav_edited2 left viewHeight cmd st
    have hf := applyNav_fold2 left viewHeight cmd st
    have hshape : totalRowsInt left (applyNav left viewHeight cmd st) =
        (totalDisplayLines (applyNav left viewHeight cmd st).foldingEnabled
          (computeDiffSections left st.editedRightContent) : Int) := by
      unfold totalRowsInt stateSections
      rw [he]
    by_cases hcmd : cmd = NavCommand.foldToggle
    · rw [hshape, hf, if_pos hcmd]
      have hTotN : 0 < totalDisplayLines st.foldingEnabled
          (computeDiffSections left st.editedRightContent) := by
        have := hTot
        unfold totalRowsInt stateSections at this
        omega
      have := totalDisplayLines_pos_transfer st.foldingEnabled (!st.foldingEnabled)
        (computeDiffSections left st.editedRightContent) hTotN
      omega
    · rw [hshape, hf, if_neg hcmd]
      have := hTot
      unfold totalRowsInt stateSections at this
      omega
  have h2 : 0 ≤ (applyNav left viewHeight cmd st).currentLine := by
    cases cmd with
    | lineUp =>
      simp only [applyNav, autoScroll_currentLine]
      omega
    | lineDown =>
      simp only [applyNav, autoScroll_currentLine]
      omega
    | pageUp =>
      simp only [applyNav, autoScroll_currentLine]
      omega
    | pageDown =>
      simp only [applyNav, autoScroll_currentLine]
      omega
    | nextSection =>
      simp only [applyNav, autoScroll_currentLine]
      exact jumpToNext_nonneg st.foldingEnabled (stateSections left st) st.currentLine h0
    | prevSection =>
      simp only [applyNav, autoScroll_currentLine]
      exact jumpToPrev_nonneg st.foldingEnabled (stateSections left st) st.currentLine h0
    | scrollLeft =>
      simp only [applyNav, autoScroll_currentLine]
      omega
    | scrollRight =>
      simp only [applyNav, autoScroll_currentLine]
      omega
    | foldToggle =>
      simp only [applyNav, autoScroll_currentLine]
      omega
  exact clamp_in_range left (applyNav left viewHeight cmd st) h2 ht2

/-- C7 witness: on the two-row display for left `"a"`, right `"a\nb"`, a
line-down from row 0 lands in range and the clamp keeps the cursor at
`min(cursor, totalRows-1) = 1`. -/
theorem claim7_witness :
    (0 ≤ (clampCursor "a" (applyNav "a" 5 NavCommand.lineDown
        ⟨0, 0, true, 0, "a\nb", []⟩)).currentLine ∧
      (clampCursor "a" (applyNav "a" 5 NavCommand.lineDown
        ⟨0, 0, true, 0, "a\nb", []⟩)).currentLine <
        totalRowsInt "a" (clampCursor "a" (applyNav "a" 5 NavCommand.lineDown
          ⟨0, 0, true, 0, "a\nb", []⟩))) ∧
    (clampCursor "a" (applyNav "a" 5 NavCommand.lineDown
        ⟨0, 0, true, 0, "a\nb", []⟩)).currentLine =
      min (applyNav "a" 5 NavCommand.lineDown ⟨0, 0, true, 0, "a\nb", []⟩).currentLine
        (totalRowsInt "a" (applyNav "a" 5 NavCommand.lineDown
          ⟨0, 0, true, 0, "a\nb", []⟩) - 1) :=
  claim7_cursor_always_in_range "a" 5 NavCommand.lineDown ⟨0, 0, true, 0, "a\nb", []⟩
    (by decide) (by decide)

/-! ## Dump mode versus interactive renderer (C3) -/

theorem applyScrollAndTruncate_zero (maxWidth : Nat) (text : String) :
    applyScrollAndTruncate 0 maxWidth text = dumpTruncate text maxWidth := by
  unfold applyScrollAndTruncate dumpTruncate
  simp

theorem buildRow_eq (cfg : RenderCfg) (leftLine rightLine : DiffLine)
    (lNum rNum : Nat) :
    buildRowInteractive cfg 0 leftLine rightLine lNum rNum =
      buildRowDump cfg leftLine rightLine lNum rNum := by
  unfold buildRowInteractive buildRowDump
  dsimp only
  rw [applyScrollAndTruncate_zero, applyScrollAndTruncate_zero]
  have hellip : ∀ w : Nat, 10 ≤ w → dumpTruncate "⋯" w = "⋯" := by
    intro w hw
    unfold dumpTruncate
    have : ("⋯" : String).data.length = 1 := by decide
    rw [if_neg (by omega)]
  have hcw : 10 ≤ max 10 ((cfg.width - 3) / 2 - 6) := le_max_left _ _
  unfold getDisplayContent
  by_cases hl : leftLine.type = .empty <;> by_cases hr : rightLine.type = .empty <;>
    simp [hl, hr, hellip _ hcw]

theorem innerLoop_eq (cfg : RenderCfg) (sec : DiffSection)
    (maxLines : Nat) (shouldFold : Bool) (foldedCount : Nat)
    (hvh : 0 < cfg.viewHeight) :
    ∀ (fuel i g ln rn : Nat),
      renderInner cfg 0 sec maxLines shouldFold foldedCount fuel i g ln rn =
        filterOut cfg (dumpInner cfg sec maxLines shouldFold foldedCount fuel i g ln rn) := by
  intro fuel
  induction fuel with
  | zero =>
    intro i g ln rn
    simp [renderInner, dumpInner, filterOut]
  | succ fuel ih =>
    intro i g ln rn
    rw [renderInner, dumpInner]
    by_cases hi : i < maxLines
    · rw [if_pos hi, if_pos hi]
      by_cases hfold : shouldFold = true ∧ i = contextLines
      · rw [if_pos hfold, if_pos hfold]
        rw [ih]
        by_cases hwin : cfg.scrollOffset ≤ g ∧ g < cfg.scrollOffset + cfg.viewHeight
        · simp [hwin, filterOut, List.filter_cons, inWindow]
        · simp [hwin, filterOut, List.filter_cons, inWindow]
      · rw [if_neg hfold, if_neg hfold]
        by_cases hskip : g < cfg.scrollOffset
        · have hskipD : 0 < cfg.scrollOffset ∧ g < cfg.scrollOffset := ⟨by omega, hskip⟩
          rw [if_pos hskip, if_pos hskipD]
          exact ih _ _ _ _
        · have hskipD : ¬ (0 < cfg.scrollOffset ∧ g < cfg.scrollOffset) := by
            intro hc
            exact hskip hc.2
          rw [if_neg hskip, if_neg hskipD]
          by_cases hend : cfg.scrollOffset + cfg.viewHeight ≤ g
          · have hendD : 0 < cfg.viewHeight ∧ cfg.scrollOffset + cfg.viewHeight ≤ g :=
              ⟨hvh, hend⟩
            rw [if_pos hend, if_pos hendD]
            simp [filterOut]
          · have hendD : ¬ (0 < cfg.viewHeight ∧ cfg.scrollOffset + cfg.viewHeight ≤ g) := by
              intro hc
              exact hend hc.2
            rw [if_neg hend, if_neg hendD]
            dsimp only
            rw [ih, buildRow_eq]
            have hwin : inWindow cfg
                (g, buildRowDump cfg ((sec.leftLines[i]?).getD ⟨"", .empty⟩)
                  ((sec.rightLines[i]?).getD ⟨"", .empty⟩) ln rn) = true := by
              unfold inWindow
              simp only [decide_eq_true_eq]
              omega
            simp [filterOut, List.filter_cons, hwin]
    · rw [if_neg hi, if_neg hi]
      simp [filterOut]

theorem sectionsLoop_eq (cfg : RenderCfg) (hvh : 0 < cfg.viewHeight) :
    ∀ (secs : List DiffSection) (g ln rn : Nat),
      renderSectionsLoop cfg 0 secs g ln rn =
        (dumpSectionsLoop cfg secs g ln rn).filter (inWindow cfg) := by
  intro secs
  induction secs with
  | nil => intro g ln rn; rfl
  | cons sec rest ih =>
    intro g ln rn
    rw [renderSectionsLoop, dumpSectionsLoop]
    rw [innerLoop_eq cfg sec (rawRowLength sec) (sectionShouldFold cfg.foldingEnabled sec)
      (if sectionShouldFold cfg.foldingEnabled sec = true then
        rawRowLength sec - contextLines * 2 else 0) hvh]
    rw [List.filter_append]
    by_cases hstop : (dumpInner cfg sec (rawRowLength sec)
        (sectionShouldFold cfg.foldingEnabled sec)
        (if sectionShouldFold cfg.foldingEnabled sec = true then
          rawRowLength sec - contextLines * 2 else 0)
        (rawRowLength sec + 1) 0 g ln rn).stop
    · simp [filterOut, hstop]
    · simp [filterOut, hstop, ih]

/-- C3 counterexample: for two identical eight-line documents with folding on,
scroll offset 4 and viewport height 10, the interactive renderer omits the
fold placeholder row (global row 3, outside the window) while the dump mode
prints it, so the two row sequences differ. -/
theorem claim3_counterexample :
    interactiveRows wDoc8 wDoc8 ⟨20, true, 4, 10⟩ 0 ≠
      dumpRows wDoc8 wDoc8 ⟨20, true, 4, 10⟩ := by
  decide

/-- C3 (amended): for every fixed width, fold flag, scroll offset and positive
viewport height, the interactive renderer's visible row sequence equals the
dump mode's row sequence restricted to rows whose global index lies in
`[scrollOffset, scrollOffset + viewHeight)`; the dump mode additionally emits
fold placeholder rows outside that window (and treats a non-positive viewport
height as unlimited). -/
theorem claim3_dump_matches_interactive (left right : String) (cfg : RenderCfg)
    (hvh : 0 < cfg.viewHeight) :
    interactiveRows left right cfg 0 =
      (dumpRows left right cfg).filter (inWindow cfg) := by
  unfold interactiveRows dumpRows
  exact sectionsLoop_eq cfg hvh (computeDiffSections left right) 0 1 1

/-- C3 witness: for left `"a\nb"` and right `"a\nc"` at width 20, scroll 0,
viewport height 5, the filtered dump rows coincide with the interactive rows. -/
theorem claim3_witness :
    interactiveRows "a\nb" "a\nc" ⟨20, true, 0, 5⟩ 0 =
      (dumpRows "a\nb" "a\nc" ⟨20, true, 0, 5⟩).filter (inWindow ⟨20, true, 0, 5⟩) :=
  claim3_dump_matches_interactive "a\nb" "a\nc" ⟨20, true, 0, 5⟩ (by decide)
